import Mathlib

/-!
# Verification of the rv process-orchestration core

Shallow embedding of the orchestration subsystem of the `rv` CLI
(`cmd/internal/utils/utils.go`, `cmd/internal/render/render.go`,
`cmd/internal/preview/preview.go`, `cmd/internal/preview/previewclient.go`,
`cmd/internal/watcher/watcher.go`), together with theorems checking the
specification's statements against it.

Go machine integers are modelled as `Int`, with `strconv.ParseInt` range
checks modelled explicitly and the one increment that can overflow a 64-bit
word (`maxVal+1` in `GetSequentialOutputDir`) wrapped two's-complement via
`wrapInt64`, as Go defines `int64` overflow.  Fallible operations return
`Option`.
-/

namespace RV

/-! ## Go integer division

Go's `/` and `%` on integers truncate toward zero and panic on a zero
divisor; the panic is modelled as `none`. -/

/-- Go integer division `a / b`: truncation toward zero, `none` on the
division-by-zero runtime panic. -/
def goDiv (a b : Int) : Option Int :=
  if b = 0 then none else some (Int.tdiv a b)

/-- Go integer remainder `a % b`: sign of the dividend, `none` on the
division-by-zero runtime panic. -/
def goMod (a b : Int) : Option Int :=
  if b = 0 then none else some (Int.tmod a b)

/-! ## Task partitioner (`utils.SplitTaskBetweenProcs`) -/

/-- Embedding of `SplitTaskBetweenProcs(n, p, i)` from
`cmd/internal/utils/utils.go`:

```go
if n <= 0 || i < 0 || i >= p { return 0 }
res := n / p
if i < n%p { res += 1 }
return res
```
-/
def SplitTaskBetweenProcs (n p i : Int) : Option Int :=
  if n ≤ 0 ∨ i < 0 ∨ p ≤ i then some 0
  else
    (goDiv n p).bind fun res =>
      (goMod n p).map fun m => if i < m then res + 1 else res

/-- The specification's formula for the partitioner: `⌊n / p⌋` plus one extra
unit exactly when the worker index falls below `n mod p` (earliest indices get
the remainder). -/
def unitsForWorker (n p i : Nat) : Nat :=
  n / p + if i < n % p then 1 else 0

/-- On valid inputs the code's result is the specification's formula. -/
theorem splitTask_eq_unitsForWorker (n p i : Nat) (hn : 1 ≤ n) (hi : i < p) :
    SplitTaskBetweenProcs n p i = some ((unitsForWorker n p i : Int)) := by
  have hguard : ¬((n : Int) ≤ 0 ∨ (i : Int) < 0 ∨ (p : Int) ≤ (i : Int)) := by
    push_neg
    refine ⟨by exact_mod_cast hn, by positivity, by exact_mod_cast hi⟩
  have hp0 : (p : Int) ≠ 0 := by
    have : 0 < p := Nat.lt_of_le_of_lt (Nat.zero_le i) hi
    exact_mod_cast this.ne'
  have hdiv : Int.tdiv (n : Int) (p : Int) = ((n / p : Nat) : Int) := rfl
  have hmod : Int.tmod (n : Int) (p : Int) = ((n % p : Nat) : Int) := rfl
  unfold SplitTaskBetweenProcs goDiv goMod
  rw [if_neg hguard, if_neg hp0, if_neg hp0]
  show some (if (i : Int) < Int.tmod (n : Int) (p : Int)
      then Int.tdiv (n : Int) (p : Int) + 1
      else Int.tdiv (n : Int) (p : Int)) = some ((unitsForWorker n p i : Nat) : Int)
  rw [hdiv, hmod]
  rcases Nat.lt_or_ge i (n % p) with hlt | hge
  · rw [if_pos (show (i : Int) < ((n % p : Nat) : Int) by exact_mod_cast hlt),
      unitsForWorker, if_pos hlt]
    push_cast
    ring_nf
  · rw [if_neg (show ¬((i : Int) < ((n % p : Nat) : Int)) by
        exact_mod_cast Nat.not_lt.mpr hge),
      unitsForWorker, if_neg (Nat.not_lt.mpr hge)]
    push_cast
    ring_nf

/-- Sum of the first `r` indicator values over `range p`. -/
theorem sum_range_ite_lt (p r : Nat) (h : r ≤ p) :
    (∑ j ∈ Finset.range p, if j < r then (1 : Nat) else 0) = r := by
  induction p with
  | zero => simpa using (Nat.le_zero.mp h).symm
  | succ p ih =>
    rw [Finset.sum_range_succ]
    rcases Nat.lt_or_ge r (p + 1) with hr | hr
    · have hr' : r ≤ p := Nat.lt_succ_iff.mp hr
      rw [ih hr']
      have : ¬(p < r) := by omega
      simp [this]
    · have hr' : r = p + 1 := le_antisymm h hr
      subst hr'
      have hall : ∀ j ∈ Finset.range p, (if j < p + 1 then (1 : Nat) else 0) = 1 := by
        intro j hj
        have := Finset.mem_range.mp hj
        simp [Nat.lt_succ_of_lt this]
      rw [Finset.sum_congr rfl hall]
      simp

/-- Conservation of the specification formula: summing over all worker
indices reproduces the total. -/
theorem sum_unitsForWorker (n p : Nat) (hp : 1 ≤ p) :
    (∑ j ∈ Finset.range p, unitsForWorker n p j) = n := by
  unfold unitsForWorker
  rw [Finset.sum_add_distrib, Finset.sum_const, Finset.card_range, smul_eq_mul,
    sum_range_ite_lt p (n % p) (le_of_lt (Nat.mod_lt n hp))]
  exact Nat.div_add_mod n p

/-- Fairness of the specification formula: any two assignments differ by at
most one. -/
theorem unitsForWorker_le_succ (n p j k : Nat) :
    unitsForWorker n p j ≤ unitsForWorker n p k + 1 := by
  unfold unitsForWorker
  split_ifs <;> omega

/-- C1: for `totalUnits ≥ 1`, `workerCount ≥ 1` and `workerIndex < workerCount`,
`SplitTaskBetweenProcs` returns `⌊n/p⌋` plus one extra unit exactly when the
index falls below `n mod p`; consequently, for `workerCount ≤ totalUnits` the
results over all indices sum to `totalUnits` and any two results differ by at
most `1`. -/
theorem splitTask_fair_partition (n p i : Nat) (hn : 1 ≤ n) (hp : 1 ≤ p)
    (hi : i < p) :
    SplitTaskBetweenProcs n p i = some ((unitsForWorker n p i : Int)) ∧
    (p ≤ n →
      (∑ j ∈ Finset.range p, ((SplitTaskBetweenProcs n p j).getD 0)) = (n : Int) ∧
      ∀ j < p, ∀ k < p,
        (SplitTaskBetweenProcs n p j).getD 0 ≤
          (SplitTaskBetweenProcs n p k).getD 0 + 1) := by
  refine ⟨splitTask_eq_unitsForWorker n p i hn hi, fun _ => ⟨?_, ?_⟩⟩
  · have hterm : ∀ j ∈ Finset.range p,
        ((SplitTaskBetweenProcs n p j).getD 0) = ((unitsForWorker n p j : Nat) : Int) := by
      intro j hj
      rw [splitTask_eq_unitsForWorker n p j hn (Finset.mem_range.mp hj)]
      rfl
    rw [Finset.sum_congr rfl hterm, ← Nat.cast_sum]
    exact_mod_cast sum_unitsForWorker n p hp
  · intro j hj k hk
    rw [splitTask_eq_unitsForWorker n p j hn hj,
      splitTask_eq_unitsForWorker n p k hn hk]
    simp only [Option.getD_some]
    exact_mod_cast unitsForWorker_le_succ n p j k

/-- Witness for C1 at `totalUnits = 10`, `workerCount = 3`. -/
theorem splitTask_fair_partition_check :
    SplitTaskBetweenProcs ((10 : Nat) : Int) ((3 : Nat) : Int) ((0 : Nat) : Int) =
      some ((unitsForWorker 10 3 0 : Int)) ∧
    (3 ≤ 10 →
      (∑ j ∈ Finset.range 3,
        ((SplitTaskBetweenProcs ((10 : Nat) : Int) ((3 : Nat) : Int) (j : Int)).getD 0)) =
          ((10 : Nat) : Int) ∧
      ∀ j : Nat, j < 3 → ∀ k : Nat, k < 3 →
        (SplitTaskBetweenProcs ((10 : Nat) : Int) ((3 : Nat) : Int) (j : Int)).getD 0 ≤
          (SplitTaskBetweenProcs ((10 : Nat) : Int) ((3 : Nat) : Int) (k : Int)).getD 0 + 1) := by
  exact splitTask_fair_partition 10 3 0 (by decide) (by decide) (by decide)

/-- C7: `SplitTaskBetweenProcs` always yields a value (in particular the
division-by-zero panic is unreachable), and every invalid input —
`totalUnits ≤ 0`, a negative index, an out-of-range index, or a zero worker
count — yields `0`. -/
theorem splitTask_total_invalid_zero (n p i : Int) :
    (SplitTaskBetweenProcs n p i).isSome = true ∧
    ((n ≤ 0 ∨ i < 0 ∨ p ≤ i ∨ p = 0) → SplitTaskBetweenProcs n p i = some 0) := by
  unfold SplitTaskBetweenProcs goDiv goMod
  split_ifs with h1 h2
  · exact ⟨rfl, fun _ => rfl⟩
  · push_neg at h1
    obtain ⟨a, b, c⟩ := h1
    exact absurd h2 (by omega)
  · push_neg at h1
    obtain ⟨a, b, c⟩ := h1
    refine ⟨rfl, fun hbad => ?_⟩
    exfalso
    rcases hbad with hb | hb | hb | hb
    · exact absurd hb a.not_le
    · exact absurd hb b.not_lt
    · exact absurd hb c.not_le
    · exact h2 hb

/-- Witness for C7 at `totalUnits = 5`, `workerCount = 0`, `workerIndex = 2`. -/
theorem splitTask_total_invalid_zero_check :
    SplitTaskBetweenProcs 5 0 2 = some 0 :=
  (splitTask_total_invalid_zero 5 0 2).2 (by decide)

/-! ## `strconv.ParseInt(s, 10, 64)`

`GetSequentialOutputDir` parses entry names with `strconv.ParseInt(name, 10, 64)`
and ignores the entry whenever an error is reported.  The parser accepts an
optional single leading sign followed by at least one decimal digit, with the
value within the signed 64-bit range; anything else (empty string, stray
characters, out-of-range value) reports an error, modelled as `none`. -/

/-- Decimal digit test. -/
def isDigitChar (c : Char) : Bool := decide ('0' ≤ c ∧ c ≤ '9')

/-- Value of one decimal digit character, `none` on a non-digit. -/
def digitVal (c : Char) : Option Nat :=
  if '0' ≤ c ∧ c ≤ '9' then some (c.toNat - '0'.toNat) else none

/-- Accumulate the decimal value of a digit run; `none` on a non-digit. -/
def decDigitsVal : List Char → Nat → Option Nat
  | [], acc => some acc
  | c :: cs, acc =>
      match digitVal c with
      | some d => decDigitsVal cs (acc * 10 + d)
      | none => none

/-- Embedding of Go `strconv.ParseInt(s, 10, 64)`. -/
def goParseInt64 (s : String) : Option Int :=
  match s.toList with
  | [] => none
  | c :: rest =>
      if c = '+' then
        if rest = [] then none
        else (decDigitsVal rest 0).bind fun v =>
          if v ≤ 2 ^ 63 - 1 then some ((v : Int)) else none
      else if c = '-' then
        if rest = [] then none
        else (decDigitsVal rest 0).bind fun v =>
          if v ≤ 2 ^ 63 then some (-(v : Int)) else none
      else
        (decDigitsVal (c :: rest) 0).bind fun v =>
          if v ≤ 2 ^ 63 - 1 then some ((v : Int)) else none

/-! ## Output directory sequencer (`utils.GetSequentialOutputDir`) -/

/-- Body of the scan loop in `GetSequentialOutputDir`:

```go
i, err := strconv.ParseInt(file.Name(), 10, 64)
if err == nil && i > maxVal { maxVal = i }
```
-/
def updateMaxEntry (maxVal : Int) (name : String) : Int :=
  match goParseInt64 name with
  | some i => if maxVal < i then i else maxVal
  | none => maxVal

/-- The `maxVal` computed by the scan loop, starting from `0`. -/
def maxNumericEntry (files : List String) : Int :=
  files.foldl updateMaxEntry 0

/-- Go `path.Join(base, elem)` for a nonempty, already-clean base path. -/
def pathJoin (base elem : String) : String := base ++ "/" ++ elem

/-- Two's-complement wrap into the signed 64-bit range: Go defines signed
integer overflow as wrap-around, which is how `maxVal+1` behaves at
`maxVal = math.MaxInt64`. -/
def wrapInt64 (x : Int) : Int := (x + 2 ^ 63) % 2 ^ 64 - 2 ^ 63

theorem wrapInt64_eq_self (x : Int) (h1 : -9223372036854775808 ≤ x)
    (h2 : x ≤ 9223372036854775807) : wrapInt64 x = x := by
  have e63 : (2 : Int) ^ 63 = 9223372036854775808 := by norm_num
  have e64 : (2 : Int) ^ 64 = 18446744073709551616 := by norm_num
  unfold wrapInt64
  rw [e63, e64]
  omega

/-- Embedding of `GetSequentialOutputDir` from `cmd/internal/utils/utils.go`.
The relevant filesystem state is the base directory: `none` when it does not
exist, `some entries` the names of its immediate entries.  `os.MkdirAll`
(creating parents as needed) is the `none → some []` transition; when the
directory already exists `os.Stat` succeeds and nothing is created.  Returns
the state after the call together with the returned path.

During the scan `maxVal` itself always lies in the `int64` range
(`strconv.ParseInt` only yields in-range values and each update keeps `0` or
picks one of them), so `maxVal+1` is the only operation that can overflow;
Go wraps it two's-complement, hence the `wrapInt64`. -/
def GetSequentialOutputDir (output_dir : String) (st : Option (List String)) :
    Option (List String) × String :=
  let stAfter : Option (List String) :=
    match st with
    | none => some []
    | some es => some es
  let files : List String := stAfter.getD []
  (stAfter, pathJoin output_dir (toString (wrapInt64 (maxNumericEntry files + 1))))

/-! ### Specification-side reading of the sequencer contract -/

/-- Specification-side notion of a numeric entry name: a nonempty string of
decimal digits. -/
def isNumericName (s : String) : Bool :=
  !s.toList.isEmpty && s.toList.all isDigitChar

/-- Specification-side value of a numeric entry name. -/
def numericValue (s : String) : Nat :=
  s.toList.foldl (fun a c => a * 10 + (c.toNat - '0'.toNat)) 0

/-- One step of the specification-side maximum over numeric entry names. -/
def specStep (m : Nat) (e : String) : Nat :=
  if isNumericName e then max m (numericValue e) else m

/-- Specification-side maximum of the numeric entry names (`0` when none). -/
def specMaxNumeric (entries : List String) : Nat :=
  entries.foldl specStep 0

/-- Entry names with a leading sign character: accepted by `strconv.ParseInt`
yet not plain digit strings. -/
def startsWithSign (s : String) : Bool :=
  match s.toList with
  | [] => false
  | c :: _ => c = '+' || c = '-'

theorem decDigitsVal_eq (cs : List Char) (acc : Nat) :
    decDigitsVal cs acc =
      if cs.all isDigitChar = true
      then some (cs.foldl (fun a c => a * 10 + (c.toNat - '0'.toNat)) acc)
      else none := by
  induction cs generalizing acc with
  | nil => simp [decDigitsVal]
  | cons c cs ih =>
    by_cases hc : '0' ≤ c ∧ c ≤ '9'
    · have hc' : isDigitChar c = true := by simp [isDigitChar, hc]
      simp only [decDigitsVal, digitVal, if_pos hc, ih, List.all_cons, hc',
        Bool.true_and, List.foldl_cons]
    · have hc' : isDigitChar c = false := by simp [isDigitChar, hc]
      simp only [decDigitsVal, digitVal, if_neg hc, List.all_cons, hc',
        Bool.false_and, List.foldl_cons]
      simp

/-- On a name without a leading sign, `strconv.ParseInt` succeeds exactly on
in-range digit strings and yields the specification-side value. -/
theorem goParseInt64_of_not_sign (s : String) (hs : startsWithSign s = false) :
    goParseInt64 s =
      if isNumericName s = true ∧ numericValue s ≤ 2 ^ 63 - 1
      then some ((numericValue s : Int))
      else none := by
  unfold goParseInt64 startsWithSign at *
  rcases hcs : s.toList with _ | ⟨c, rest⟩
  · have hd : s.data = [] := hcs
    simp [isNumericName, hd]
  · rw [hcs] at hs
    have hc : (decide (c = '+') || decide (c = '-')) = false := hs
    simp only [Bool.or_eq_false_iff, decide_eq_false_iff_not] at hc
    dsimp only
    rw [if_neg hc.1, if_neg hc.2, decDigitsVal_eq]
    by_cases hall : (c :: rest).all isDigitChar = true
    · have hnum : isNumericName s = true := by
        have hd : s.data = c :: rest := hcs
        simp only [isNumericName, String.toList, hd, List.isEmpty_cons,
          Bool.not_false, Bool.true_and]
        exact hall
      rw [if_pos hall]
      have hval : numericValue s =
          (c :: rest).foldl (fun a c => a * 10 + (c.toNat - '0'.toNat)) 0 := by
        rw [numericValue, hcs]
      rw [Option.some_bind, ← hval]
      by_cases hr : numericValue s ≤ 2 ^ 63 - 1
      · rw [if_pos hr, if_pos ⟨hnum, hr⟩]
      · rw [if_neg hr, if_neg (fun h => hr h.2)]
    · have hnum : isNumericName s = false := by
        have hd : s.data = c :: rest := hcs
        simp only [isNumericName, String.toList, hd, List.isEmpty_cons,
          Bool.not_false, Bool.true_and]
        exact Bool.eq_false_iff.mpr hall
      rw [if_neg hall, if_neg (fun h => by rw [hnum] at h; exact Bool.false_ne_true h.1)]
      rfl

/-- One scan-loop step agrees with one specification-side step, on a name
without a leading sign whose numeric value (if any) is in 64-bit range. -/
theorem updateMaxEntry_eq_spec (e : String) (m : Nat)
    (hs : startsWithSign e = false)
    (hr : isNumericName e = true → numericValue e ≤ 2 ^ 63 - 1) :
    updateMaxEntry (m : Int) e = ((specStep m e : Nat) : Int) := by
  rw [updateMaxEntry, goParseInt64_of_not_sign e hs, specStep]
  by_cases hn : isNumericName e = true
  · have hv := hr hn
    rw [if_pos ⟨hn, hv⟩, if_pos hn]
    show (if (m : Int) < ((numericValue e : Nat) : Int)
        then ((numericValue e : Nat) : Int) else (m : Int)) =
      ((max m (numericValue e) : Nat) : Int)
    rcases Nat.lt_or_ge m (numericValue e) with h | h
    · rw [if_pos (by exact_mod_cast h), Nat.max_eq_right (le_of_lt h)]
    · rw [if_neg (by exact_mod_cast Nat.not_lt.mpr h), Nat.max_eq_left h]
  · rw [if_neg (fun h => hn h.1), if_neg hn]

/-- The whole scan agrees with the specification-side maximum, entrywise under
the same side conditions. -/
theorem foldMax_eq_spec :
    ∀ (entries : List String),
      (∀ e ∈ entries, startsWithSign e = false) →
      (∀ e ∈ entries, isNumericName e = true → numericValue e ≤ 2 ^ 63 - 1) →
      ∀ m : Nat, entries.foldl updateMaxEntry (m : Int) =
        ((entries.foldl specStep m : Nat) : Int)
  | [], _, _, _ => rfl
  | e :: es, hs, hr, m => by
    rw [List.foldl_cons, List.foldl_cons,
      updateMaxEntry_eq_spec e m (hs e (List.mem_cons_self e es))
        (hr e (List.mem_cons_self e es))]
    exact foldMax_eq_spec es (fun x hx => hs x (List.mem_cons_of_mem e hx))
      (fun x hx => hr x (List.mem_cons_of_mem e hx)) (specStep m e)

/-- The specification-side maximum never exceeds a bound satisfied by every
numeric entry (and by the starting accumulator). -/
theorem specFold_le (B : Nat) :
    ∀ (entries : List String) (m : Nat), m ≤ B →
      (∀ e ∈ entries, isNumericName e = true → numericValue e ≤ B) →
      entries.foldl specStep m ≤ B
  | [], _, hm, _ => hm
  | e :: es, m, hm, hr => by
    rw [List.foldl_cons]
    refine specFold_le B es (specStep m e) ?_
      (fun x hx hn => hr x (List.mem_cons_of_mem e hx) hn)
    unfold specStep
    split_ifs with h
    · exact max_le hm (hr e (List.mem_cons_self e es) h)
    · exact hm

/-- C3 counterexample: with the single entry `9223372036854775807`
(`math.MaxInt64`), `maxVal+1` wraps in Go `int64` arithmetic, so the program
returns the negative component `-9223372036854775808` rather than the claimed
`maxExistingNumericName + 1 = 9223372036854775808`. -/
theorem getSequentialOutputDir_wrap_cex :
    (GetSequentialOutputDir "out" (some ["9223372036854775807"])).2 =
      "out/-9223372036854775808" ∧
    (GetSequentialOutputDir "out" (some ["9223372036854775807"])).2 ≠
      "out/9223372036854775808" := by
  decide

/-- C3 amended: `GetSequentialOutputDir` ensures the base directory exists
(creating it, parents included, when absent; a no-op when present), returns
the base path joined with the successor — computed in Go `int64`
arithmetic — of the largest numeric entry name (non-numeric names ignored),
and does not itself create that numbered subdirectory: the base directory's
entries are unchanged.  The component equals `max + 1` whenever every numeric
entry is at most `2^63 - 2`; at `2^63 - 1` the increment wraps (see the
counterexample).  Side conditions: entry names carry no leading sign and all
numeric names are at most `2^63 - 2`. -/
theorem getSequentialOutputDir_contract (output_dir : String)
    (st : Option (List String))
    (hsign : ∀ e ∈ st.getD [], startsWithSign e = false)
    (hrange : ∀ e ∈ st.getD [], isNumericName e = true →
      numericValue e ≤ 2 ^ 63 - 2) :
    (GetSequentialOutputDir output_dir st).1 = some (st.getD []) ∧
    (GetSequentialOutputDir output_dir st).2 =
      pathJoin output_dir (toString ((specMaxNumeric (st.getD []) + 1 : Nat))) := by
  have hrange' : ∀ e ∈ st.getD [], isNumericName e = true →
      numericValue e ≤ 2 ^ 63 - 1 :=
    fun e he hn => le_trans (hrange e he hn) (by norm_num)
  have hmax : maxNumericEntry (st.getD []) = ((specMaxNumeric (st.getD []) : Nat) : Int) := by
    have h := foldMax_eq_spec (st.getD []) hsign hrange' 0
    simpa [maxNumericEntry, specMaxNumeric] using h
  have hb : specMaxNumeric (st.getD []) ≤ 2 ^ 63 - 2 :=
    specFold_le (2 ^ 63 - 2) (st.getD []) 0 (Nat.zero_le _) hrange
  have hb' : specMaxNumeric (st.getD []) ≤ 9223372036854775806 := by
    have hc : (2 : Nat) ^ 63 - 2 = 9223372036854775806 := by norm_num
    rw [hc] at hb
    exact hb
  have hwrap : wrapInt64 (maxNumericEntry (st.getD []) + 1) =
      (((specMaxNumeric (st.getD []) + 1 : Nat)) : Int) := by
    rw [hmax]
    have hx1 : (-9223372036854775808 : Int) ≤
        ((specMaxNumeric (st.getD []) : Nat) : Int) + 1 := by omega
    have hx2 : ((specMaxNumeric (st.getD []) : Nat) : Int) + 1 ≤
        9223372036854775807 := by omega
    rw [wrapInt64_eq_self _ hx1 hx2]
    push_cast
    ring
  constructor
  · cases st <;> rfl
  · have h2 : (GetSequentialOutputDir output_dir st).2 =
        pathJoin output_dir
          (toString (wrapInt64 (maxNumericEntry (st.getD []) + 1))) := by
      cases st <;> rfl
    rw [h2, hwrap]
    congr 1

/-- Witness for C3 on the specified example directory `{1, 2, 5, foo}`. -/
theorem getSequentialOutputDir_contract_check :
    (GetSequentialOutputDir "out" (some ["1", "2", "5", "foo"])).1 =
      some ["1", "2", "5", "foo"] ∧
    (GetSequentialOutputDir "out" (some ["1", "2", "5", "foo"])).2 = "out/6" := by
  have h := getSequentialOutputDir_contract "out" (some ["1", "2", "5", "foo"])
    (by decide) (by decide)
  exact ⟨h.1, h.2.trans (by decide)⟩

/-- C9 counterexample: invoking the sequencer on a base directory holding the
single entry `1` leaves the directory's immediate entries unchanged — in
particular no new subdirectory `2` exists afterwards, so the base does not
gain one more immediate subdirectory. -/
theorem seqDir_creates_no_slot_cex :
    (GetSequentialOutputDir "out" (some ["1"])).1 = some ["1"] ∧
    ((GetSequentialOutputDir "out" (some ["1"])).1.getD []).length = 1 ∧
    "2" ∉ ((GetSequentialOutputDir "out" (some ["1"])).1.getD []) := by
  decide

/-- C9 amended: one invocation of the sequencer creates no subdirectory of the
base path; it only ensures the base directory itself exists and leaves its
immediate entries exactly as they were, the numbered slot being created later
by the spawned engine process. -/
theorem seqDir_frame (output_dir : String) (st : Option (List String)) :
    (GetSequentialOutputDir output_dir st).1 = some (st.getD []) := by
  cases st <;> rfl

theorem updateMaxEntry_nonneg (acc : Int) (e : String) (h : 0 ≤ acc) :
    0 ≤ updateMaxEntry acc e := by
  unfold updateMaxEntry
  cases hgp : goParseInt64 e with
  | none => exact h
  | some i =>
    show 0 ≤ if acc < i then i else acc
    split_ifs with hlt <;> omega

theorem updateMaxEntry_of_nonpos (acc : Int) (e : String) (h : 0 ≤ acc)
    (he : ¬ 0 < (goParseInt64 e).getD 0) : updateMaxEntry acc e = acc := by
  unfold updateMaxEntry
  cases hgp : goParseInt64 e with
  | none => rfl
  | some i =>
    rw [hgp] at he
    simp only [Option.getD_some] at he
    show (if acc < i then i else acc) = acc
    rw [if_neg (by omega)]

theorem foldMax_nonneg :
    ∀ (es : List String) (acc : Int), 0 ≤ acc → 0 ≤ es.foldl updateMaxEntry acc
  | [], _, h => h
  | e :: es, acc, h =>
    foldMax_nonneg es (updateMaxEntry acc e) (updateMaxEntry_nonneg acc e h)

theorem foldMax_filter_pos :
    ∀ (es : List String) (acc : Int), 0 ≤ acc →
      es.foldl updateMaxEntry acc =
        (es.filter fun e => 0 < (goParseInt64 e).getD 0).foldl updateMaxEntry acc
  | [], _, _ => rfl
  | e :: es, acc, h => by
    rw [List.foldl_cons]
    by_cases hpos : 0 < (goParseInt64 e).getD 0
    · rw [List.filter_cons_of_pos (by simpa using hpos), List.foldl_cons]
      exact foldMax_filter_pos es _ (updateMaxEntry_nonneg acc e h)
    · rw [List.filter_cons_of_neg (by simpa using hpos),
        updateMaxEntry_of_nonpos acc e h hpos]
      exact foldMax_filter_pos es acc h

/-- C10 counterexample: a base directory containing the entry
`9223372036854775807` (`math.MaxInt64`) makes the slot computation wrap: the
final path component is `-9223372036854775808`, so the computed slot number
is not always at least `1`. -/
theorem seqDir_negative_slot_cex :
    wrapInt64 (maxNumericEntry ["9223372036854775807"] + 1) =
      -9223372036854775808 ∧
    ¬ 1 ≤ wrapInt64 (maxNumericEntry ["9223372036854775807"] + 1) := by
  decide

/-- C10 amended: entries whose names parse to a non-positive integer are
ignored exactly like non-numeric names — filtering them away leaves the
computed maximum unchanged, because the running maximum starts at `0` (and
hence stays non-negative) — and the returned path's component, the `int64`
wrap of `maxNumericEntry + 1`, is at least `1` whenever the scanned maximum
is below `2^63 - 1`; at exactly `2^63 - 1` the increment wraps negative. -/
theorem seqDir_slot_positive_below_wrap (output_dir : String)
    (st : Option (List String)) :
    maxNumericEntry (st.getD []) =
      maxNumericEntry ((st.getD []).filter fun e => 0 < (goParseInt64 e).getD 0) ∧
    (GetSequentialOutputDir output_dir st).2 =
      pathJoin output_dir (toString (wrapInt64 (maxNumericEntry (st.getD []) + 1))) ∧
    (maxNumericEntry (st.getD []) < 9223372036854775807 →
      1 ≤ wrapInt64 (maxNumericEntry (st.getD []) + 1)) := by
  refine ⟨foldMax_filter_pos (st.getD []) 0 le_rfl, ?_, ?_⟩
  · cases st <;> rfl
  · intro hlt
    have h0 : 0 ≤ maxNumericEntry (st.getD []) :=
      foldMax_nonneg (st.getD []) 0 le_rfl
    rw [wrapInt64_eq_self _ (by omega) (by omega)]
    omega

/-- Witness for the amended C10 at the single entry `5`. -/
theorem seqDir_slot_positive_below_wrap_check :
    1 ≤ wrapInt64 (maxNumericEntry ((some ["5"] : Option (List String)).getD []) + 1) :=
  (seqDir_slot_positive_below_wrap "out" (some ["5"])).2.2 (by decide)

/-! ## File watcher (`watcher.WatchFile`)

After the directory watch is established, `WatchFile` loops over a three-way
`select`: context cancellation, a filesystem event, or a watcher error.  The
loop is embedded as a function over the sequence of inputs the `select`
receives, tracking the number of callback invocations and how (or whether)
the loop has returned. -/

/-- One input received by the watch loop's `select`. -/
inductive WatchInput where
  | ctxDone : WatchInput
  | fsEvent (op : Nat) (name : String) : WatchInput
  | fsError (msg : String) : WatchInput

/-- `fsnotify.Write` is the bit `1 << 1` of the event `Op` bit set. -/
def fsnotifyWrite : Nat := 2

/-- The loop's event filter: `ev.Op&fsnotify.Write == fsnotify.Write && ev.Name == abs`. -/
def isTargetWrite (abs : String) (op : Nat) (name : String) : Bool :=
  (op &&& fsnotifyWrite == fsnotifyWrite) && (name == abs)

/-- Embedding of the `for { select { ... } }` loop of `WatchFile`:
first component counts callback invocations, second is `none` while the loop
is still running, `some none` when it returned `nil` on context cancellation,
and `some (some e)` when it returned the error `e` from the watcher's error
channel. -/
def WatchFileLoop (abs : String) : List WatchInput → Nat → Nat × Option (Option String)
  | [], calls => (calls, none)
  | .ctxDone :: _, calls => (calls, some none)
  | .fsEvent op name :: rest, calls =>
      WatchFileLoop abs rest (if isTargetWrite abs op name then calls + 1 else calls)
  | .fsError msg :: _, calls => (calls, some (some msg))

theorem watchLoop_events_count (abs : String) :
    ∀ (events : List (Nat × String)) (k : Nat),
      (WatchFileLoop abs (events.map fun e => WatchInput.fsEvent e.1 e.2) k).1 =
        k + events.countP (fun e => isTargetWrite abs e.1 e.2)
  | [], k => by simp [WatchFileLoop]
  | e :: es, k => by
    rw [List.map_cons]
    show (WatchFileLoop abs (es.map fun e => WatchInput.fsEvent e.1 e.2)
        (if isTargetWrite abs e.1 e.2 then k + 1 else k)).1 = _
    rw [watchLoop_events_count abs es, List.countP_cons]
    by_cases hp : isTargetWrite abs e.1 e.2
    · simp [hp]
      omega
    · simp [hp]

/-- C4: over any sequence of filesystem events, the callback is invoked once
per write event whose reported path equals the absolute target — `N` matching
writes give exactly `N` invocations, with no coalescing — and events naming
any other file give zero invocations. -/
theorem watchFile_callback_counts (abs : String) (events : List (Nat × String)) :
    (WatchFileLoop abs (events.map fun e => WatchInput.fsEvent e.1 e.2) 0).1 =
      events.countP (fun e => isTargetWrite abs e.1 e.2) ∧
    ((∀ e ∈ events, e.2 ≠ abs) →
      (WatchFileLoop abs (events.map fun e => WatchInput.fsEvent e.1 e.2) 0).1 = 0) := by
  have hcount := watchLoop_events_count abs events 0
  rw [Nat.zero_add] at hcount
  refine ⟨hcount, fun hmiss => ?_⟩
  rw [hcount, List.countP_eq_zero]
  intro e he
  simp only [isTargetWrite, Bool.and_eq_true, beq_iff_eq]
  rintro ⟨-, hname⟩
  exact hmiss e he hname

/-- Witness for C4: one write event for a sibling file produces no callback. -/
theorem watchFile_callback_counts_check :
    (WatchFileLoop "/w/script.py"
      ([((2 : Nat), "/w/other.py")].map fun e => WatchInput.fsEvent e.1 e.2) 0).1 = 0 :=
  (watchFile_callback_counts "/w/script.py" [((2 : Nat), "/w/other.py")]).2 (by decide)

/-- The first terminating input of the watch loop, as the specification
describes it: context cancellation returns cleanly, a watcher error returns
that error, events keep the loop running. -/
def firstLoopExit : List WatchInput → Option (Option String)
  | [] => none
  | .ctxDone :: _ => some none
  | .fsError msg :: _ => some (some msg)
  | .fsEvent _ _ :: rest => firstLoopExit rest

/-- C8: the established watch loop ends in exactly two ways: it returns `nil`
when the context fires first, returns exactly the reported error when the
error channel fires first, and otherwise keeps running — for every input
sequence and invocation count. -/
theorem watchFile_exit_modes (abs : String) :
    ∀ (inputs : List WatchInput) (k : Nat),
      (WatchFileLoop abs inputs k).2 = firstLoopExit inputs
  | [], _ => rfl
  | .ctxDone :: _, _ => rfl
  | .fsError _ :: _, _ => rfl
  | .fsEvent _ _ :: rest, _ => watchFile_exit_modes abs rest _

/-! ## Reload signal client (`preview.previewClient.requestRerun`) -/

/-- One HTTP request as issued by `http.Post(url, contentType, body)`;
`body = none` is Go's `nil` body. -/
structure HttpPostCall where
  url : String
  contentType : String
  body : Option String

/-- Embedding of `requestRerun`:

```go
url := fmt.Sprintf("http://127.0.0.1:%d/rerun", c.port)
_, _ = http.Post(url, "application/json", nil)
```

`transport` is the behaviour of `http.Post` (response or transport error);
both results are discarded.  Returns the list of requests issued together
with the error surfaced to the caller — the method returns nothing, so the
surfaced error is always `none`. -/
def requestRerun (port : Int) (transport : HttpPostCall → Except String String) :
    List HttpPostCall × Option String :=
  let url := "http://127.0.0.1:" ++ toString port ++ "/rerun"
  let call : HttpPostCall := ⟨url, "application/json", none⟩
  let _ := transport call
  ([call], none)

/-- C5: `requestRerun` issues exactly one POST with empty body to
`http://127.0.0.1:<port>/rerun`, surfaces no error, and its behaviour is
identical under every transport outcome — failures are silently discarded,
never retried, and the response is never inspected. -/
theorem requestRerun_fire_and_forget (port : Int)
    (t1 t2 : HttpPostCall → Except String String) :
    requestRerun port t1 =
      ([⟨"http://127.0.0.1:" ++ toString port ++ "/rerun", "application/json", none⟩],
        none) ∧
    requestRerun port t1 = requestRerun port t2 :=
  ⟨rfl, rfl⟩

/-! ## Process supervision (`render.Render` and `preview.Preview`)

Both orchestration modes are a sequence of fallible setup steps followed by
process supervision.  An environment record captures which steps succeed in
the outside world.  `logs.Err.Fatalln` is `log.Fatalln`: it prints the message
and calls `os.Exit(1)`, so those paths end the invocation with exit status 1;
a normal return from `Render`/`Preview` ends it with exit status 0.  A
worker's completion is `none` for a clean exit and `some msg` for the error
`cmd.Wait` reports on a non-zero exit. -/

/-- Severity of a log line (`logs.Info`, `logs.Warn`, `logs.Err`). -/
inductive LogLevel where
  | info : LogLevel
  | warn : LogLevel
  | error : LogLevel
deriving DecidableEq

/-- One log line of the invocation. -/
structure LogEntry where
  level : LogLevel
  msg : String
deriving DecidableEq

/-- A `logs.Info` line. -/
def infoLog (msg : String) : LogEntry := ⟨LogLevel.info, msg⟩

/-- A `logs.Err` line (always followed by `os.Exit(1)` via `Fatalln`). -/
def errLog (msg : String) : LogEntry := ⟨LogLevel.error, msg⟩

/-- Outcome of one CLI invocation: the log it printed, the process exit
status, and how many engine processes were successfully started. -/
structure RunOutcome where
  logs : List LogEntry
  exitCode : Nat
  spawned : Nat
deriving DecidableEq

/-- The outside-world conditions `render.Render` depends on.  `scriptExists`
is part of the world but — unlike in preview mode — never consulted:
`Render` only calls `filepath.Abs` on the script path, which does not touch
the filesystem. -/
structure RenderEnv where
  blenderFound : Bool
  libFound : Bool
  outputDirOk : Bool
  cwdOk : Bool
  scriptExists : Bool
  startOk : Bool
deriving DecidableEq

/-- `if procs < 0 { procs = 1 }` -/
def clampProcs (procs : Int) : Int := if procs < 0 then 1 else procs

/-- `if imgNum < procs { procs = imgNum }` after clamping: the number of
workers the spawn loop and the wait loop run for. -/
def effProcs (imgNum procs : Int) : Int :=
  if imgNum < clampProcs procs then imgNum else clampProcs procs

/-- Per-worker message of the wait loop:

```go
if err != nil { logs.Info.Println("Blender exited with error:", err) }
else { logs.Info.Println("Blender exited.") }
```
-/
def workerExitLog : Option String → LogEntry
  | some e => infoLog ("Blender exited with error: " ++ e)
  | none => infoLog "Blender exited."

/-- Embedding of `render.Render(scriptPathRel, imgNum, procs, outputDir)`.
`arrivals` is the order in which worker completions are received on the
buffered wait channel (one entry per spawned worker, in any completion
order); the wait loop performs exactly `effProcs` receives.  No operating
system interrupt is delivered during the run.  Start failure is modelled as
the first `cmd.Start` failing. -/
def renderRun (imgNum procs : Int) (env : RenderEnv)
    (arrivals : List (Option String)) : RunOutcome :=
  if !env.blenderFound then ⟨[errLog "Can't find blender path"], 1, 0⟩
  else if !env.libFound then ⟨[errLog "Can't find rvlib"], 1, 0⟩
  else
    let l0 := [infoLog "librv path"]
    if !env.outputDirOk then ⟨l0 ++ [errLog "Can't create new output directory"], 1, 0⟩
    else if !env.cwdOk then
      ⟨l0 ++ [errLog "Can't get current working directory path"], 1, 0⟩
    else if imgNum < 1 then ⟨l0 ++ [errLog "--number is less then one"], 1, 0⟩
    else if 0 < effProcs imgNum procs ∧ !env.startOk then
      ⟨l0 ++ [errLog "failed to start blender"], 1, 0⟩
    else
      ⟨l0 ++ (List.range (effProcs imgNum procs).toNat).map
            (fun _ => infoLog "Blender started")
          ++ (arrivals.take (effProcs imgNum procs).toNat).map workerExitLog,
        0, (effProcs imgNum procs).toNat⟩

/-- The outside-world conditions `preview.Preview` depends on.  `os.Stat`
errors other than non-existence are folded into `scriptExists`. -/
structure PreviewEnv where
  blenderFound : Bool
  libFound : Bool
  portOk : Bool
  scriptExists : Bool
  scriptIsDir : Bool
  cwdOk : Bool
  startOk : Bool
deriving DecidableEq

/-- Embedding of `preview.Preview(scriptPathRel)` up to (and including) the
start of the single supervised engine process; the supervised run itself
terminates through the interrupt/exit `select` and returns normally. -/
def previewRun (env : PreviewEnv) : RunOutcome :=
  if !env.blenderFound then ⟨[errLog "Can't find blender path"], 1, 0⟩
  else if !env.libFound then ⟨[errLog "Can't find rvlib"], 1, 0⟩
  else if !env.portOk then ⟨[errLog "Can't allocate a port"], 1, 0⟩
  else if !env.scriptExists then ⟨[errLog "Script path does not exist"], 1, 0⟩
  else if env.scriptIsDir then
    ⟨[errLog "Script path is a directory, not a file"], 1, 0⟩
  else if !env.cwdOk then ⟨[errLog "Can't get current working directory path"], 1, 0⟩
  else if !env.startOk then ⟨[errLog "Failed to start blender"], 1, 0⟩
  else ⟨[infoLog "Blender started"], 0, 1⟩

/-- A render-mode environment in which every setup step succeeds. -/
def allOkRenderEnv : RenderEnv := ⟨true, true, true, true, true, true⟩

/-- C2 counterexample: with three workers spawned (`imgNum = 7`, `procs = 3`)
and exactly one worker exiting non-zero, all three completions are awaited
and logged, yet the invocation's exit status is `0`: the worker failure does
not make the overall outcome a failure. -/
theorem render_worker_failure_cex :
    (renderRun 7 3 allOkRenderEnv [some "exit status 1", none, none]).exitCode = 0 ∧
    (renderRun 7 3 allOkRenderEnv [some "exit status 1", none, none]).logs =
      [infoLog "librv path",
       infoLog "Blender started", infoLog "Blender started", infoLog "Blender started",
       infoLog "Blender exited with error: exit status 1",
       infoLog "Blender exited.", infoLog "Blender exited."] := by
  decide

/-- C2 amended: in render mode the wait loop performs one receive per spawned
worker — all `workerCount` processes are awaited before the invocation
finishes, each completion (clean or failed) individually logged — but the
invocation then exits `0` regardless of the workers' exit statuses; a
worker's non-zero exit is reported only in the log, not in the overall
outcome. -/
theorem render_awaits_all_workers (imgNum procs : Int) (env : RenderEnv)
    (arrivals : List (Option String))
    (hb : env.blenderFound = true) (hl : env.libFound = true)
    (ho : env.outputDirOk = true) (hc : env.cwdOk = true)
    (hs : env.startOk = true) (hi : 1 ≤ imgNum)
    (hlen : arrivals.length = (effProcs imgNum procs).toNat) :
    (renderRun imgNum procs env arrivals).exitCode = 0 ∧
    (renderRun imgNum procs env arrivals).spawned = (effProcs imgNum procs).toNat ∧
    (renderRun imgNum procs env arrivals).logs =
      [infoLog "librv path"]
        ++ (List.range (effProcs imgNum procs).toNat).map
            (fun _ => infoLog "Blender started")
        ++ arrivals.map workerExitLog := by
  unfold renderRun
  rw [hb, hl, ho, hc, hs]
  simp only [Bool.not_true, Bool.false_eq_true, if_false, and_false, if_neg
    (show ¬imgNum < 1 by omega)]
  refine ⟨by trivial, by trivial, ?_⟩
  show [infoLog "librv path"] ++ _ ++ (arrivals.take (effProcs imgNum procs).toNat).map
      workerExitLog = _
  rw [← hlen, List.take_length]

/-- Witness for the amended C2 with three cleanly exiting workers. -/
theorem render_awaits_all_workers_check :
    (renderRun 7 3 allOkRenderEnv [none, none, none]).exitCode = 0 ∧
    (renderRun 7 3 allOkRenderEnv [none, none, none]).spawned =
      (effProcs 7 3).toNat ∧
    (renderRun 7 3 allOkRenderEnv [none, none, none]).logs =
      [infoLog "librv path"]
        ++ (List.range (effProcs 7 3).toNat).map (fun _ => infoLog "Blender started")
        ++ [none, none, none].map workerExitLog := by
  exact render_awaits_all_workers 7 3 allOkRenderEnv [none, none, none]
    rfl rfl rfl rfl rfl (by decide) (by decide)

/-- A render-mode environment in which the script file is absent but every
setup step succeeds. -/
def noScriptRenderEnv : RenderEnv := ⟨true, true, true, true, false, true⟩

/-- C6 counterexample: a render invocation with the script file absent and a
worker-process count of `0` — two of the claim's fatal configuration
errors — performs no fatal exit at all: it spawns zero workers and exits
`0`. -/
theorem render_config_errors_not_fatal_cex :
    (renderRun 5 0 noScriptRenderEnv []).exitCode = 0 ∧
    (renderRun 5 0 noScriptRenderEnv []).spawned = 0 := by
  decide

/-- C6 amended: fatal configuration handling as the code implements it — a
missing (or directory) script path is fatal in preview mode only; a missing
renderer executable is fatal in both modes; an image count below one is fatal
in render mode; each of these exits `1` before any engine process starts.
Render mode does not validate the worker-process count: a negative count is
clamped to `1`, and a zero count proceeds with zero workers and exit status
`0`. -/
theorem fatal_config_exit_nonzero :
    (∀ env : PreviewEnv, env.scriptExists = false →
      (previewRun env).exitCode = 1 ∧ (previewRun env).spawned = 0) ∧
    (∀ env : PreviewEnv, env.blenderFound = false →
      (previewRun env).exitCode = 1 ∧ (previewRun env).spawned = 0) ∧
    (∀ (imgNum procs : Int) (env : RenderEnv) (arrivals : List (Option String)),
      env.blenderFound = false →
      (renderRun imgNum procs env arrivals).exitCode = 1 ∧
      (renderRun imgNum procs env arrivals).spawned = 0) ∧
    (∀ (imgNum procs : Int) (env : RenderEnv) (arrivals : List (Option String)),
      imgNum < 1 →
      (renderRun imgNum procs env arrivals).exitCode = 1 ∧
      (renderRun imgNum procs env arrivals).spawned = 0) ∧
    (∀ (imgNum procs : Int) (env : RenderEnv) (arrivals : List (Option String)),
      procs < 0 →
      renderRun imgNum procs env arrivals = renderRun imgNum 1 env arrivals) ∧
    (∀ (imgNum : Int) (env : RenderEnv) (arrivals : List (Option String)),
      env.blenderFound = true → env.libFound = true → env.outputDirOk = true →
      env.cwdOk = true → 1 ≤ imgNum →
      (renderRun imgNum 0 env arrivals).exitCode = 0 ∧
      (renderRun imgNum 0 env arrivals).spawned = 0) := by
  refine ⟨?_, ?_, ?_, ?_, ?_, ?_⟩
  · intro env hscript
    unfold previewRun
    split_ifs with h1 h2 h3 h4 h5 h6 h7
    all_goals try exact ⟨rfl, rfl⟩
    rw [hscript] at h4
    simp at h4
  · intro env hblender
    unfold previewRun
    split_ifs with h1 h2 h3 h4 h5 h6 h7
    all_goals try exact ⟨rfl, rfl⟩
    rw [hblender] at h1
    simp at h1
  · intro imgNum procs env arrivals hblender
    unfold renderRun
    split_ifs with h1 h2 h3 h4 h5 h6
    all_goals try exact ⟨rfl, rfl⟩
    rw [hblender] at h1
    simp at h1
  · intro imgNum procs env arrivals hcount
    unfold renderRun
    split_ifs with h1 h2 h3 h4
    all_goals exact ⟨rfl, rfl⟩
  · intro imgNum procs env arrivals hneg
    have hclamp : clampProcs procs = clampProcs 1 := by
      unfold clampProcs
      rw [if_pos hneg, if_neg (by omega)]
    unfold renderRun effProcs
    rw [hclamp]
  · intro imgNum env arrivals hb hl ho hc hi
    have heff : effProcs imgNum 0 = 0 := by
      unfold effProcs clampProcs
      rw [if_neg (by omega : ¬(0 : Int) < 0), if_neg (by omega : ¬imgNum < 0)]
    unfold renderRun
    rw [hb, hl, ho, hc, heff]
    simp only [Bool.not_true, Bool.false_eq_true, if_false, if_neg
      (show ¬imgNum < 1 by omega)]
    rw [if_neg (show ¬((0 : Int) < 0 ∧ (!env.startOk) = true) from
      fun h => absurd h.1 (by omega))]
    exact ⟨rfl, rfl⟩

/-- Witness for the amended C6: in preview mode a missing script is fatal. -/
theorem fatal_config_exit_nonzero_check :
    (previewRun ⟨true, true, true, false, false, true, true⟩).exitCode = 1 ∧
    (previewRun ⟨true, true, true, false, false, true, true⟩).spawned = 0 :=
  fatal_config_exit_nonzero.1 ⟨true, true, true, false, false, true, true⟩ rfl

end RV
